import Mathlib

/-!
# Rank-based color gradient generators: a shallow embedding

This file embeds, in Lean 4, the color-assignment logic of the dashboard
pages of the repository `CJS3333/ai_project1` and proves (or refutes)
the testable properties stated in the specification of its
"RankColorizer" component.

The repository reimplements the same transform — "the top-ranked entry
gets a fixed accent color, every other entry gets a color from a blue
gradient" — independently in several pages.  The embedding keeps each
variant separate, mirroring its source:

* `make_blue_gradient` — `src/pages/04_지하철 분석.py`, lines 127–141
  (rank-positional gradient, hex-string output);
* `colors06` — `src/pages/06_수행평가.py`, lines 155–164
  (value-based gradient, accent by equality with the maximum);
* `colors08` / `get_color` — `src/pages/08_수행평가3.py`, lines 91–105
  (accent at the first index attaining the maximum, fixed palette);
* `colors03` / `ratioNorm03` — `src/pages/03_MBTI분석.py`, lines 58–139
  (value-normalized gradient over descending-sorted data).

Numeric conventions: Python floats are modelled as exact rationals `ℚ`;
every arithmetic operation used by these code paths (`+`, `-`, `*`, `/`,
comparison, `int(...)` truncation) is exact on the inputs the claims
evaluate, so the models agree with IEEE evaluation there.  Python
`int(x)` truncates toward zero and is modelled by `pyInt`.
-/

/-- Python `int(x)` applied to a (here exact rational) number:
truncation toward zero. -/
def pyInt (q : ℚ) : ℤ := if 0 ≤ q then ⌊q⌋ else ⌈q⌉

/-- One lowercase hexadecimal digit, as produced by Python `"%x"`
formatting (`'0'`–`'9'` then `'a'`–`'f'`). -/
def hexDigitChar (n : ℕ) : Char :=
  if n < 10 then Char.ofNat (48 + n) else Char.ofNat (87 + n)

/-- The two characters produced by Python `f"{z:02x}"` for `0 ≤ z < 256`
(the only range reached by the gradient channels, as proved below). -/
def hex02 (z : ℤ) : List Char :=
  [hexDigitChar (z.toNat / 16), hexDigitChar (z.toNat % 16)]

/-- Python f-string `f"#{r:02x}{g:02x}{b:02x}"` from
`make_blue_gradient`. -/
def rgbHexColor (r g b : ℤ) : String :=
  String.mk ('#' :: (hex02 r ++ hex02 g ++ hex02 b))

/-- `start = (0, 51, 204)` (dark blue `#0033cc`) in `make_blue_gradient`. -/
def gradStart : ℕ × ℕ × ℕ := (0, 51, 204)

/-- `end = (204, 229, 255)` (light blue `#cce5ff`) in `make_blue_gradient`. -/
def gradEnd : ℕ × ℕ × ℕ := (204, 229, 255)

/-- `t = i / max(1, n-2)` from the gradient loop of `make_blue_gradient`
(`04_지하철 분석.py`, line 136): integer `max`, then float division. -/
def tGrad (n : ℤ) (i : ℕ) : ℚ := (i : ℚ) / ((max 1 (n - 2) : ℤ) : ℚ)

/-- One channel `int(start_c + (end_c - start_c) * t)` from
`make_blue_gradient` (lines 137–139). -/
def gradChannel (s e : ℕ) (t : ℚ) : ℤ :=
  pyInt ((s : ℚ) + ((e : ℚ) - (s : ℚ)) * t)

/-- The color string appended at loop index `i` of `make_blue_gradient n`
(lines 136–140). -/
def gradColor (n : ℤ) (i : ℕ) : String :=
  rgbHexColor (gradChannel gradStart.1 gradEnd.1 (tGrad n i))
              (gradChannel gradStart.2.1 gradEnd.2.1 (tGrad n i))
              (gradChannel gradStart.2.2 gradEnd.2.2 (tGrad n i))

/-- `make_blue_gradient` from `04_지하철 분석.py`, lines 127–141:
red accent first, then `n-1` gradient colors with `t = i / max(1, n-2)`.
The argument is an integer, as in the source (`if n <= 0: return []`). -/
def make_blue_gradient (n : ℤ) : List String :=
  if n ≤ 0 then []
  else if n = 1 then ["#ff0000"]
  else "#ff0000" :: (List.range (n - 1).toNat).map (gradColor n)

/-- pandas `Series.max()` on the `total` column (`06_수행평가.py`,
line 157); the column is nonempty at the call site (`if not
dose_df.empty`), so the `[]` case is never reached there. -/
def listMax : List ℚ → ℚ
  | [] => 0
  | x :: xs => xs.foldl max x

/-- Python f-string `f'rgb(0,0,{blue_level})'` (`06_수행평가.py`,
line 164). -/
def rgbBlue (z : ℤ) : String := "rgb(0,0," ++ toString z ++ ")"

/-- The per-row color of the loop at `06_수행평가.py`, lines 158–164:
`'red'` when `val == max_total`, else
`blue_level = int(255 * (0.3 + 0.7 * (val / max_total) if max_total>0
else 0.3))`. -/
def color06 (max_total val : ℚ) : String :=
  if val = max_total then "red"
  else rgbBlue (pyInt (255 *
    (if 0 < max_total then 3/10 + 7/10 * (val / max_total) else 3/10)))

/-- The full color list of `06_수행평가.py`, lines 155–164:
`for val in dose_df['total']`. -/
def colors06 (totals : List ℚ) : List String :=
  totals.map (color06 (listMax totals))

/-- pandas `Series.idxmax()` (`08_수행평가3.py`, line 91): the positional
index of the first occurrence of the maximum (the frame has a default
`RangeIndex`, so the label index is the position). -/
def idxmax (l : List ℚ) : ℕ := l.findIdx (fun v => decide (v = listMax l))

/-- `get_color` from `08_수행평가3.py`, lines 94–103: accent for the row
whose index is `top_rate_idx`, otherwise a fixed per-label palette. -/
def get_color (top_rate_idx idx : ℕ) (label : String) : String :=
  if idx = top_rate_idx then "#FF0000"
  else if label = "1차 접종률" then "#2C7BB6"
  else if label = "2차 접종률" then "#7FBCD2"
  else if label = "3차 접종률" then "#B3E2CD"
  else if label = "4차 접종률" then "#FDC086"
  else "#F0F9E8"

/-- `rates_df.apply(get_color, axis=1)` (`08_수행평가3.py`, line 105):
row-wise application, `row.name` being the positional index. -/
def colors08 (entries : List (String × ℚ)) : List String :=
  entries.mapIdx (fun i e => get_color (idxmax (entries.map Prod.snd)) i e.1)

/-- pandas `sort_values(ascending=False)` on (label, value) rows
(`03_MBTI분석.py`, line 59).  Modelled as a stable descending sort
(insertion sort); pandas' default `quicksort` leaves the relative order
of tied values unspecified, and every concrete input used below is
tie-free, so the model's tie order is never load-bearing for a
refutation. -/
def sortDesc (l : List (String × ℚ)) : List (String × ℚ) :=
  List.insertionSort (fun a b => b.2 ≤ a.2) l

/-- `mbti_types = country_data.sort_values(ascending=False).index.tolist()`
(`03_MBTI분석.py`, lines 59–62): the x-axis labels of the produced chart,
in descending-value order. -/
def mbtiTypes (row : List (String × ℚ)) : List String :=
  (sortDesc row).map Prod.fst

/-- `ratios = country_data.sort_values(ascending=False).values`
(`03_MBTI분석.py`, lines 59–64): the y-axis values of the produced
chart. -/
def mbtiRatios (row : List (String × ℚ)) : List ℚ :=
  (sortDesc row).map Prod.snd

/-- `ratio_norm` at `03_MBTI분석.py`, line 121:
`(ratios[i] - ratios[n_bars-1]) / (ratios[1] - ratios[n_bars-1] + 1e-9)`,
where `ratios` is already sorted in descending order. -/
def ratioNorm03 (ratios : List ℚ) (i : ℕ) : ℚ :=
  (ratios.getD i 0 - ratios.getD (ratios.length - 1) 0) /
    (ratios.getD 1 0 - ratios.getD (ratios.length - 1) 0 + 1 / 1000000000)

/-- `L = 50 + (1 - ratio_norm) * 30` (`03_MBTI분석.py`, line 126). -/
def L03 (ratios : List ℚ) (i : ℕ) : ℚ := 50 + (1 - ratioNorm03 ratios i) * 30

/-- Python f-string `f'hsl(220, 70%, {L}%)'` (`03_MBTI분석.py`,
line 127).  The numeric-to-text rendering of `L` is abstracted to the
exact rational's `toString`; the claims about this variant only compare
the accent entry and the numeric interpolation parameter. -/
def hslColor (L : ℚ) : String := "hsl(220, 70%, " ++ toString L ++ "%)"

/-- The color list built in `create_mbti_bar_chart` (`03_MBTI분석.py`,
lines 72–127): accent `'rgb(220, 20, 60)'` first, then — only when
`n_bars > 1` — one gradient entry per `i in range(1, n_bars)`. -/
def colors03 (ratios : List ℚ) : List String :=
  "rgb(220, 20, 60)" ::
    (if 1 < ratios.length then
      (List.range' 1 (ratios.length - 1)).map (fun i => hslColor (L03 ratios i))
    else [])

/-- Follows the spec's words, for comparison with the source's
`gradChannel`: "`channel = gradient_start[c] + (gradient_end[c] -
gradient_start[c]) * t`, each channel result rounded to the nearest
integer and clamped to [0,255] before encoding". -/
def specChannel (s e : ℕ) (t : ℚ) : ℤ :=
  max 0 (min 255 (round ((s : ℚ) + ((e : ℚ) - (s : ℚ)) * t)))

/-! ## Helper lemmas -/

lemma le_foldl_max (xs : List ℚ) (a : ℚ) : a ≤ xs.foldl max a := by
  induction xs generalizing a with
  | nil => exact le_refl a
  | cons x xs ih => exact le_trans (le_max_left a x) (ih (max a x))

lemma mem_le_foldl_max (xs : List ℚ) (a b : ℚ) (hb : b ∈ xs) :
    b ≤ xs.foldl max a := by
  induction xs generalizing a with
  | nil => cases hb
  | cons x xs ih =>
    rcases List.mem_cons.mp hb with h | h
    · subst h
      exact le_trans (le_max_right a b) (le_foldl_max xs (max a b))
    · exact ih (max a x) h

lemma foldl_max_mem (xs : List ℚ) (a : ℚ) :
    xs.foldl max a = a ∨ xs.foldl max a ∈ xs := by
  induction xs generalizing a with
  | nil => exact Or.inl rfl
  | cons x xs ih =>
    rcases ih (max a x) with h | h
    · rcases max_cases a x with ⟨hm, _⟩ | ⟨hm, _⟩
      · exact Or.inl (by rw [List.foldl_cons, h, hm])
      · exact Or.inr (by rw [List.foldl_cons, h, hm]; exact List.mem_cons_self x xs)
    · exact Or.inr (List.mem_cons_of_mem x h)

lemma listMax_mem {l : List ℚ} (h : l ≠ []) : listMax l ∈ l := by
  cases l with
  | nil => exact absurd rfl h
  | cons x xs =>
    rcases foldl_max_mem xs x with h' | h'
    · rw [listMax, h']; exact List.mem_cons_self x xs
    · exact List.mem_cons_of_mem x h'

lemma le_listMax {l : List ℚ} {a : ℚ} (h : a ∈ l) : a ≤ listMax l := by
  cases l with
  | nil => cases h
  | cons x xs =>
    rcases List.mem_cons.mp h with h' | h'
    · subst h'; exact le_foldl_max xs a
    · exact mem_le_foldl_max xs x a h'

lemma hexDigitChar_ne_f {k : ℕ} (hk : k ≤ 12) : hexDigitChar k ≠ 'f' := by
  unfold hexDigitChar
  interval_cases k <;> decide

lemma rgbBlue_ne_red (z : ℤ) : rgbBlue z ≠ "red" := by
  intro h
  have hl := congrArg String.length h
  rw [rgbBlue, String.length_append, String.length_append] at hl
  have h1 : ("rgb(0,0," : String).length = 8 := by decide
  have h2 : (")" : String).length = 1 := by decide
  have h3 : ("red" : String).length = 3 := by decide
  omega

lemma get_color_ne {top idx : ℕ} (h : idx ≠ top) (label : String) :
    get_color top idx label ≠ "#FF0000" := by
  unfold get_color
  rw [if_neg h]
  split_ifs <;> decide

lemma maxDen_pos (n : ℤ) : (0 : ℚ) < ((max 1 (n - 2) : ℤ) : ℚ) := by
  have : (0 : ℤ) < max 1 (n - 2) := lt_of_lt_of_le zero_lt_one (le_max_left _ _)
  exact_mod_cast this

lemma tGrad_nonneg (n : ℤ) (i : ℕ) : 0 ≤ tGrad n i :=
  div_nonneg (Nat.cast_nonneg i) (le_of_lt (maxDen_pos n))

lemma tGrad_le_one {n : ℤ} {i : ℕ} (hi : (i : ℤ) ≤ n - 2) : tGrad n i ≤ 1 := by
  rw [tGrad, div_le_one (maxDen_pos n)]
  have : (i : ℤ) ≤ max 1 (n - 2) := le_trans hi (le_max_right _ _)
  exact_mod_cast this

lemma tGrad_mono (n : ℤ) {i j : ℕ} (hij : i ≤ j) : tGrad n i ≤ tGrad n j :=
  (div_le_div_iff_of_pos_right (maxDen_pos n)).mpr (by exact_mod_cast hij)

lemma interp_nonneg {s e : ℕ} {t : ℚ} (ht0 : 0 ≤ t) (ht1 : t ≤ 1) :
    0 ≤ (s : ℚ) + ((e : ℚ) - (s : ℚ)) * t := by
  have hs : (0 : ℚ) ≤ (s : ℚ) := Nat.cast_nonneg s
  have he : (0 : ℚ) ≤ (e : ℚ) := Nat.cast_nonneg e
  nlinarith [mul_nonneg (sub_nonneg.mpr ht1) hs, mul_nonneg ht0 he]

lemma interp_le {s e : ℕ} {t : ℚ} (ht0 : 0 ≤ t) (ht1 : t ≤ 1)
    (hs : s ≤ 255) (he : e ≤ 255) :
    (s : ℚ) + ((e : ℚ) - (s : ℚ)) * t ≤ 255 := by
  have hs' : (s : ℚ) ≤ 255 := by exact_mod_cast hs
  have he' : (e : ℚ) ≤ 255 := by exact_mod_cast he
  nlinarith [mul_nonneg (sub_nonneg.mpr ht1) (sub_nonneg.mpr hs'),
    mul_nonneg ht0 (sub_nonneg.mpr he')]

lemma gradChannel_eq_floor {s e : ℕ} {t : ℚ} (ht0 : 0 ≤ t) (ht1 : t ≤ 1) :
    gradChannel s e t = ⌊(s : ℚ) + ((e : ℚ) - (s : ℚ)) * t⌋ := by
  rw [gradChannel, pyInt, if_pos (interp_nonneg ht0 ht1)]

lemma gradChannel_nonneg {s e : ℕ} {t : ℚ} (ht0 : 0 ≤ t) (ht1 : t ≤ 1) :
    0 ≤ gradChannel s e t := by
  rw [gradChannel_eq_floor ht0 ht1]
  exact Int.le_floor.mpr (by exact_mod_cast interp_nonneg ht0 ht1)

lemma gradChannel_le {s e c : ℕ} {t : ℚ} (ht0 : 0 ≤ t) (ht1 : t ≤ 1)
    (hub : (s : ℚ) + ((e : ℚ) - (s : ℚ)) * t ≤ (c : ℚ)) :
    gradChannel s e t ≤ (c : ℤ) := by
  rw [gradChannel_eq_floor ht0 ht1]
  have h := Int.floor_le_floor hub
  rwa [Int.floor_natCast] at h

lemma rgbHexColor_ne_accent {r g b : ℤ} (hr : r ≤ 204) :
    rgbHexColor r g b ≠ "#ff0000" := by
  intro h
  rw [rgbHexColor,
    show ("#ff0000" : String) = String.mk ['#','f','f','0','0','0','0'] from rfl] at h
  have hd : '#' :: (hex02 r ++ hex02 g ++ hex02 b) = ['#','f','f','0','0','0','0'] :=
    congrArg String.data h
  simp only [hex02, List.cons_append, List.nil_append, List.cons.injEq] at hd
  have h1 : hexDigitChar (r.toNat / 16) = 'f' := hd.2.1
  have hb : r.toNat / 16 ≤ 12 := by omega
  exact hexDigitChar_ne_f hb h1

lemma gradColor_ne_accent {n : ℤ} {i : ℕ} (hi : (i : ℤ) ≤ n - 2) :
    gradColor n i ≠ "#ff0000" := by
  have ht0 := tGrad_nonneg n i
  have ht1 := tGrad_le_one hi
  apply rgbHexColor_ne_accent
  show gradChannel 0 204 (tGrad n i) ≤ 204
  have h : gradChannel 0 204 (tGrad n i) ≤ ((204 : ℕ) : ℤ) :=
    gradChannel_le ht0 ht1 (by push_cast; nlinarith)
  exact_mod_cast h

/-! ## The claims -/

/-- C10 (confirmed): for every integer `n ≥ 0`, `make_blue_gradient n`
returns a list of exactly `n` color strings, so every bar of the
rendered chart receives a color. -/
theorem C10_length (n : ℤ) (h : 0 ≤ n) :
    (make_blue_gradient n).length = n.toNat := by
  unfold make_blue_gradient
  split_ifs with h0 h1
  · simp; omega
  · simp [h1]
  · simp only [List.length_cons, List.length_map, List.length_range]
    omega

/-- Witness for C10: a ten-bar chart gets exactly ten colors. -/
theorem C10_witness : (make_blue_gradient 10).length = (10 : ℤ).toNat :=
  C10_length 10 (by norm_num)

/-- C8 (confirmed): for every single-entry input, every variant assigns
its accent color to that entry and produces no gradient colors:
the rank-positional variant (`make_blue_gradient 1`), the value-based
variant (`colors06`), the MBTI variant (`colors03`) and the `idxmax`
variant (`colors08`). -/
theorem C8_single_entry :
    make_blue_gradient 1 = ["#ff0000"]
    ∧ (∀ v : ℚ, colors06 [v] = ["red"])
    ∧ (∀ r : ℚ, colors03 [r] = ["rgb(220, 20, 60)"])
    ∧ (∀ lab : String, ∀ v : ℚ, colors08 [(lab, v)] = ["#FF0000"]) := by
  refine ⟨by decide, fun v => ?_, fun r => ?_, fun lab v => ?_⟩
  · simp [colors06, listMax, color06]
  · simp [colors03]
  · simp [colors08, idxmax, listMax, get_color, List.findIdx_cons]

/-- C5 counterexample: called on an empty input (`n = 0`), the source's
colorizer (`make_blue_gradient`, lines 128–129) returns a normal empty
color assignment `[]`; it does not fail, and no `InvalidInput` error
path exists in the code. -/
theorem C5_counterexample : make_blue_gradient 0 = [] := by decide

/-- C5 (corrected): calling the colorizer with an empty (or
non-positive-length) entries sequence returns an empty color list,
normally, rather than failing with an `InvalidInput` error. -/
theorem C5_empty_returns_nil (n : ℤ) (h : n ≤ 0) :
    make_blue_gradient n = [] := by
  unfold make_blue_gradient
  rw [if_pos h]

/-- Witness for C5: the degenerate call at `n = -2` also yields `[]`. -/
theorem C5_witness : make_blue_gradient (-2) = [] :=
  C5_empty_returns_nil (-2) (by norm_num)

/-- C6 counterexample: the source truncates each channel with `int()`
instead of rounding to the nearest integer.  At `t = 1/2` (reached by
`make_blue_gradient 4` at loop index `i = 1`) the blue channel is
`int(204 + 51*0.5) = int(229.5) = 229`, while the spec's
round-to-nearest value is `230`; the emitted color is `#668ce5`, not
`#668ce6`. -/
theorem C6_counterexample :
    gradChannel 204 255 (1/2) = 229 ∧ specChannel 204 255 (1/2) = 230 ∧
    gradChannel 204 255 (1/2) ≠ specChannel 204 255 (1/2) ∧
    tGrad 4 1 = 1/2 ∧
    make_blue_gradient 4 = ["#ff0000", "#0033cc", "#668ce5", "#cce5ff"] := by
  have e3 : gradChannel 204 255 (1/2) = 229 := by norm_num [gradChannel, pyInt]
  have sp : specChannel 204 255 (1/2) = 230 := by
    norm_num [specChannel, round_eq, Int.floor_eq_iff]
  have h1 : tGrad 4 1 = 1/2 := by norm_num [tGrad]
  refine ⟨e3, sp, by rw [e3, sp]; decide, h1, ?_⟩
  have h0 : tGrad 4 0 = 0 := by norm_num [tGrad]
  have h2 : tGrad 4 2 = 1 := by norm_num [tGrad]
  have e1 : gradChannel 0 204 (1/2) = 102 := by norm_num [gradChannel, pyInt]
  have e2 : gradChannel 51 229 (1/2) = 140 := by norm_num [gradChannel, pyInt]
  simp [make_blue_gradient, List.range, List.range.loop, gradColor,
    gradStart, gradEnd, h0, h1, h2, e1, e2, e3]
  norm_num [gradChannel, pyInt, rgbHexColor, hex02, hexDigitChar]
  decide

/-- C6 (corrected): each output channel equals
`gradient_start[c] + (gradient_end[c] - gradient_start[c]) * t`
truncated toward zero (a floor, as the value is nonnegative) — not
rounded to the nearest integer — and no clamping is performed; still,
for any `t` in `[0,1]` and endpoint channels in `[0,255]`, every output
channel is an integer in `[0,255]`. -/
theorem C6_channel_range (s e : ℕ) (hs : s ≤ 255) (he : e ≤ 255)
    (t : ℚ) (ht0 : 0 ≤ t) (ht1 : t ≤ 1) :
    gradChannel s e t = ⌊(s : ℚ) + ((e : ℚ) - (s : ℚ)) * t⌋ ∧
    0 ≤ gradChannel s e t ∧ gradChannel s e t ≤ 255 := by
  refine ⟨gradChannel_eq_floor ht0 ht1, gradChannel_nonneg ht0 ht1, ?_⟩
  have h : gradChannel s e t ≤ ((255 : ℕ) : ℤ) :=
    gradChannel_le ht0 ht1 (interp_le ht0 ht1 hs he)
  exact_mod_cast h

/-- Witness for C6: the channel `(0, 204)` at `t = 1/3` stays in
`[0, 255]`. -/
theorem C6_witness :
    0 ≤ gradChannel 0 204 (1/3) ∧ gradChannel 0 204 (1/3) ≤ 255 :=
  ⟨(C6_channel_range 0 204 (by norm_num) (by norm_num) (1/3)
      (by norm_num) (by norm_num)).2.1,
   (C6_channel_range 0 204 (by norm_num) (by norm_num) (1/3)
      (by norm_num) (by norm_num)).2.2⟩

/-- C9 (confirmed): in the rank-positional variant, for any chart of
`n ≥ 2` bars (in particular the strictly decreasing
`[("A",100), ("B",80), ("C",50), ("D",10)]`, whose values do not affect
the rank-positional colors), every color channel of the non-top entries
moves monotonically from `gradient_start` toward `gradient_end` along
the rank sequence and is never reversed: the channel value at loop
index `i` is at most the one at index `j` whenever `i ≤ j`.  The
endpoint hypothesis `s ≤ e` holds for all three channels of
`gradStart`/`gradEnd`. -/
theorem C9_monotone (n : ℤ) (hn : 2 ≤ n) (s e : ℕ) (hse : s ≤ e)
    (i j : ℕ) (hij : i ≤ j) (hj : j < (n - 1).toNat) :
    gradChannel s e (tGrad n i) ≤ gradChannel s e (tGrad n j) := by
  have hjle : (j : ℤ) ≤ n - 2 := by omega
  have hile : (i : ℤ) ≤ n - 2 := by omega
  rw [gradChannel_eq_floor (tGrad_nonneg n i) (tGrad_le_one hile),
    gradChannel_eq_floor (tGrad_nonneg n j) (tGrad_le_one hjle)]
  apply Int.floor_le_floor
  have hmono := tGrad_mono n hij
  have hes : (0 : ℚ) ≤ (e : ℚ) - (s : ℚ) := by
    rw [sub_nonneg]; exact_mod_cast hse
  nlinarith [mul_le_mul_of_nonneg_left hmono hes]

/-- C1 counterexample: on the tie input `[10, 10, 5]`, the value-based
variant (`06_수행평가.py`, lines 158–164) assigns the accent color
`'red'` to BOTH entries achieving the maximum — the output is
`['red', 'red', 'rgb(0,0,165)']` — so it is not the case that exactly
one entry is assigned the accent color. -/
theorem C1_counterexample :
    colors06 [10, 10, 5] = ["red", "red", "rgb(0,0,165)"] ∧
    ¬ (∃! i : ℕ, (colors06 [10, 10, 5]).getD i "" = "red") := by
  have hm : listMax [10, 10, 5] = 10 := by norm_num [listMax]
  have hc : colors06 [10, 10, 5] = ["red", "red", "rgb(0,0,165)"] := by
    simp only [colors06, hm, List.map_cons, List.map_nil]
    norm_num [color06]
    rw [show pyInt ((663 : ℚ)/4) = 165 by norm_num [pyInt, Int.floor_eq_iff]]
    decide
  refine ⟨hc, ?_⟩
  rintro ⟨i, _, huniq⟩
  have h0 := huniq 0 (by rw [hc]; rfl)
  have h1 := huniq 1 (by rw [hc]; rfl)
  omega

/-- C1 (corrected): the accent-assignment policy differs between
variants.  In the rank-positional variant (`make_blue_gradient`,
`04_지하철 분석.py`), for every `n ≥ 2` exactly the first (top-ranked)
position receives the accent `'#ff0000'` and no gradient entry ever
equals it.  In the value-based variant (`06_수행평가.py`), an entry
receives the accent `'red'` precisely when its value equals the
maximum, so on tie inputs several entries are accented. -/
theorem C1_accent_policy :
    (∀ n : ℤ, 2 ≤ n →
      (make_blue_gradient n).head? = some "#ff0000" ∧
      ∀ s ∈ (make_blue_gradient n).tail, s ≠ "#ff0000")
    ∧ (∀ (totals : List ℚ) (i : ℕ), i < totals.length →
        ((colors06 totals).getD i "" = "red" ↔
          totals.getD i 0 = listMax totals)) := by
  constructor
  · intro n hn
    unfold make_blue_gradient
    rw [if_neg (by omega), if_neg (by omega)]
    refine ⟨rfl, ?_⟩
    intro s hs
    simp only [List.tail_cons, List.mem_map, List.mem_range] at hs
    obtain ⟨i, hi, rfl⟩ := hs
    exact gradColor_ne_accent (by omega)
  · intro totals i hi
    have hlen : i < (colors06 totals).length := by
      simpa [colors06] using hi
    have hcell : (colors06 totals).getD i "" =
        color06 (listMax totals) (totals.getD i 0) := by
      rw [List.getD_eq_getElem _ _ hlen, List.getD_eq_getElem _ _ hi]
      simp [colors06]
    rw [hcell]
    constructor
    · intro h
      by_contra hne
      rw [color06, if_neg hne] at h
      exact rgbBlue_ne_red _ h
    · intro h
      rw [color06, if_pos h]

/-- Witness for C1: the head of a four-bar rank-positional chart is the
accent, and in the value-based variant the third entry of `[10, 10, 5]`
is accented iff its value `5` is the maximum (it is not). -/
theorem C1_witness :
    (make_blue_gradient 4).head? = some "#ff0000" ∧
    ((colors06 [10, 10, 5]).getD 2 "" = "red" ↔
      ([10, 10, 5] : List ℚ).getD 2 0 = listMax [10, 10, 5]) :=
  ⟨(C1_accent_policy.1 4 (by norm_num)).1,
   C1_accent_policy.2 [10, 10, 5] 2 (by norm_num)⟩

/-- C3 counterexample: on the all-tied input `[5, 5, 5]`, the non-top
entries do NOT receive the midpoint parameter `t = 0.5`: in the
value-normalized variant (`03_MBTI분석.py`, line 121) both remaining
entries get `ratio_norm = 0` (the `1e-9` term makes the denominator
nonzero but the numerator is `0`), and in the value-based variant
(`06_수행평가.py`) all three tied entries are accented `'red'`, so no
gradient color is produced at all. -/
theorem C3_counterexample :
    ratioNorm03 [5, 5, 5] 1 = 0 ∧ ratioNorm03 [5, 5, 5] 2 = 0 ∧
    ((0 : ℚ) ≠ 1/2) ∧
    colors06 [5, 5, 5] = ["red", "red", "red"] := by
  refine ⟨by norm_num [ratioNorm03, List.getD],
    by norm_num [ratioNorm03, List.getD], by norm_num, ?_⟩
  have hm : listMax [5, 5, 5] = 5 := by norm_num [listMax]
  simp only [colors06, hm, List.map_cons, List.map_nil]
  norm_num [color06]

/-- C3 (corrected): in the value-normalized variant, when all non-top
values are tied the computation neither fails nor divides by zero (the
`+ 1e-9` keeps the denominator nonzero), but every non-top entry gets
interpolation parameter `ratio_norm = 0` — not the midpoint `0.5` —
hence lightness `L = 80`. -/
theorem C3_all_tied (ratios : List ℚ) (h2 : 2 ≤ ratios.length)
    (htied : ∀ v ∈ ratios.tail, v = ratios.getD 1 0) :
    (∀ i, 1 ≤ i → i < ratios.length →
      ratioNorm03 ratios i = 0 ∧ L03 ratios i = 80) ∧
    ratios.getD 1 0 - ratios.getD (ratios.length - 1) 0 + 1 / 1000000000 ≠ 0 := by
  have key : ∀ i, 1 ≤ i → i < ratios.length →
      ratios.getD i 0 = ratios.getD 1 0 := by
    intro i h1 hilen
    cases ratios with
    | nil => simp at hilen
    | cons x xs =>
      obtain ⟨i', rfl⟩ : ∃ i', i = i' + 1 := ⟨i - 1, by omega⟩
      have hx : (x :: xs).getD (i' + 1) 0 = xs.getD i' 0 := rfl
      have hi' : i' < xs.length := by
        simpa using hilen
      rw [hx, List.getD_eq_getElem _ _ hi']
      exact htied _ (List.getElem_mem hi')
  have hlast : ratios.getD (ratios.length - 1) 0 = ratios.getD 1 0 :=
    key _ (by omega) (by omega)
  constructor
  · intro i h1 hilen
    have hnum : ratios.getD i 0 - ratios.getD (ratios.length - 1) 0 = 0 := by
      rw [key i h1 hilen, hlast, sub_self]
    constructor
    · rw [ratioNorm03, hnum, zero_div]
    · rw [L03, ratioNorm03, hnum, zero_div]
      norm_num
  · rw [hlast, sub_self, zero_add]
    norm_num

/-- Witness for C3: on `[10, 5, 5]` (non-top entries tied at `5`), the
second and third bars both get `ratio_norm = 0` and lightness `80`. -/
theorem C3_witness :
    (ratioNorm03 [10, 5, 5] 1 = 0 ∧ L03 [10, 5, 5] 1 = 80) ∧
    (ratioNorm03 [10, 5, 5] 2 = 0 ∧ L03 [10, 5, 5] 2 = 80) :=
  ⟨(C3_all_tied [10, 5, 5] (by norm_num)
      (by norm_num [List.getD])).1 1 (by norm_num) (by norm_num),
   (C3_all_tied [10, 5, 5] (by norm_num)
      (by norm_num [List.getD])).1 2 (by norm_num) (by norm_num)⟩

/-- C2 (confirmed): in the `idxmax` variant (`08_수행평가3.py`, lines
91–105), on any input with entries tied for the maximum, the first entry
in input order achieving the maximum — the positional `idxmax` — and
only that entry receives the accent `'#FF0000'`: no earlier index
attains the maximum, and every other index gets a palette color
different from the accent. -/
theorem C2_first_max (entries : List (String × ℚ)) (hne : entries ≠ [])
    (_htie : ∃ i j : ℕ, i < j ∧ j < entries.length ∧
      (entries.map Prod.snd).getD i 0 = listMax (entries.map Prod.snd) ∧
      (entries.map Prod.snd).getD j 0 = listMax (entries.map Prod.snd)) :
    idxmax (entries.map Prod.snd) < entries.length ∧
    (entries.map Prod.snd).getD (idxmax (entries.map Prod.snd)) 0
      = listMax (entries.map Prod.snd) ∧
    (∀ k, k < idxmax (entries.map Prod.snd) →
      (entries.map Prod.snd).getD k 0 ≠ listMax (entries.map Prod.snd)) ∧
    (colors08 entries).getD (idxmax (entries.map Prod.snd)) "" = "#FF0000" ∧
    (∀ j, j < entries.length → j ≠ idxmax (entries.map Prod.snd) →
      (colors08 entries).getD j "" ≠ "#FF0000") := by
  set vals := entries.map Prod.snd with hvals
  have hvne : vals ≠ [] := by
    rw [hvals]; simpa [List.map_eq_nil_iff] using hne
  have hmem : listMax vals ∈ vals := listMax_mem hvne
  have hexists : ∃ x ∈ vals, (fun v => decide (v = listMax vals)) x = true :=
    ⟨listMax vals, hmem, by simp⟩
  have hltv : idxmax vals < vals.length :=
    List.findIdx_lt_length_of_exists hexists
  have hlen : vals.length = entries.length := by rw [hvals, List.length_map]
  have hlt : idxmax vals < entries.length := hlen ▸ hltv
  refine ⟨hlt, ?_, ?_, ?_, ?_⟩
  · rw [List.getD_eq_getElem _ _ hltv]
    exact of_decide_eq_true (List.findIdx_getElem (w := hltv))
  · intro k hk
    have hkv : k < vals.length := lt_trans hk hltv
    rw [List.getD_eq_getElem _ _ hkv]
    exact of_decide_eq_false (List.not_of_lt_findIdx hk)
  · rw [List.getD_eq_getElem?_getD]
    unfold colors08
    rw [List.getElem?_mapIdx, List.getElem?_eq_getElem hlt]
    simp [get_color]
  · intro j hj hjne
    rw [List.getD_eq_getElem?_getD]
    unfold colors08
    rw [List.getElem?_mapIdx, List.getElem?_eq_getElem hj]
    simpa using get_color_ne hjne _

/-- Witness for C2: on the spec's tie example
`[("A",10), ("B",10), ("C",5)]`, the output is
`['#FF0000', '#F0F9E8', '#F0F9E8']` — the accent goes to `"A"` (index
0, the first occurrence of the maximum) and not to `"B"`. -/
theorem C2_witness :
    colors08 [("A", (10:ℚ)), ("B", 10), ("C", 5)]
      = ["#FF0000", "#F0F9E8", "#F0F9E8"] ∧
    (colors08 [("A", (10:ℚ)), ("B", 10), ("C", 5)]).getD
      (idxmax ([("A", (10:ℚ)), ("B", 10), ("C", 5)].map Prod.snd)) ""
      = "#FF0000" := by
  constructor
  · have hm : listMax [10, 10, 5] = 10 := by norm_num [listMax]
    simp only [colors08, List.map_cons, List.map_nil, idxmax, hm]
    norm_num [List.findIdx_cons, List.mapIdx, get_color]
    decide
  · exact (C2_first_max [("A", 10), ("B", 10), ("C", 5)] (by simp)
      ⟨0, 1, by norm_num, by norm_num,
        by norm_num [listMax, List.getD], by norm_num [listMax, List.getD]⟩).2.2.2.1

/-- C4 (confirmed): in the rank-based variant, writing
`count_remaining = n - 1` for the number of non-top entries, the loop
of `make_blue_gradient` gives the `i`-th remaining entry the
interpolation parameter `t = i / max(1, count_remaining - 1)` (the
source's `i / max(1, n-2)`); when exactly one entry remains
(`count_remaining = 1`, i.e. `n = 2`) its parameter is `t = 0`; the
divisor `max(1, n-2)` is positive for every input size, so no division
by zero occurs; and the `i`-th gradient cell of the output is exactly
the loop's color at index `i`.  The descending ordering of the
remaining entries is performed by the caller through pandas
`sort_values` (external library code); it is modelled from the spec's
words as the stable descending sort `sortDesc`, which is proved sorted,
a permutation of its input, and stable (order-respecting pairs keep
their relative order). -/
theorem C4_by_rank (n : ℤ) (hn : 2 ≤ n) :
    (∀ i : ℕ, tGrad n i = (i : ℚ) / ((max 1 ((n - 1) - 1) : ℤ) : ℚ)) ∧
    (n - 1 = 1 → tGrad n 0 = 0) ∧
    ((0 : ℤ) < max 1 (n - 2)) ∧
    ((make_blue_gradient n).tail.length = (n - 1).toNat ∧
      ∀ i, i < (n - 1).toNat →
        (make_blue_gradient n).tail.getD i "" = gradColor n i) ∧
    (∀ entries : List (String × ℚ),
      List.Sorted (fun a b : String × ℚ => b.2 ≤ a.2) (sortDesc entries) ∧
      (sortDesc entries).Perm entries ∧
      (∀ a b : String × ℚ, b.2 ≤ a.2 →
        [a, b].Sublist entries → [a, b].Sublist (sortDesc entries))) := by
  have htail : (make_blue_gradient n).tail
      = (List.range (n - 1).toNat).map (gradColor n) := by
    unfold make_blue_gradient
    rw [if_neg (by omega), if_neg (by omega)]
    rfl
  refine ⟨?_, ?_, ?_, ⟨?_, ?_⟩, ?_⟩
  · intro i
    have h : (n - 1) - 1 = n - 2 := by ring
    rw [tGrad, h]
  · intro h
    rw [tGrad]
    simp
  · exact lt_of_lt_of_le zero_lt_one (le_max_left _ _)
  · rw [htail]; simp
  · intro i hi
    rw [htail]
    have hil : i < ((List.range (n - 1).toNat).map (gradColor n)).length := by
      simpa using hi
    rw [List.getD_eq_getElem _ _ hil, List.getElem_map, List.getElem_range]
  · intro entries
    refine ⟨?_, ?_, ?_⟩
    · exact @List.sorted_insertionSort _ _ _
        ⟨fun a b => le_total b.2 a.2⟩ ⟨fun a b c hab hbc => le_trans hbc hab⟩ entries
    · exact List.perm_insertionSort _ entries
    · intro a b hab hsub
      exact List.pair_sublist_insertionSort hab hsub

/-- Witness for C4: with two bars the single remaining entry gets
`t = 0`; the divisor is positive at `n = 4`; and the stable sort keeps
the input order of the two entries tied at `7`. -/
theorem C4_witness :
    tGrad 2 0 = 0 ∧ ((0 : ℤ) < max 1 ((4 : ℤ) - 2)) ∧
    [(("B" : String), (7:ℚ)), (("A" : String), (7:ℚ))].Sublist
      (sortDesc [("B", 7), ("A", 7), ("C", 3)]) :=
  ⟨(C4_by_rank 2 (by norm_num)).2.1 (by norm_num),
   (C4_by_rank 4 (by norm_num)).2.2.1,
   ((C4_by_rank 2 (by norm_num)).2.2.2.2 [("B", 7), ("A", 7), ("C", 3)]).2.2
     ("B", 7) ("A", 7) (by norm_num) (by decide)⟩

/-- C7 counterexample: the chart produced by `create_mbti_bar_chart`
(`03_MBTI분석.py`) lists its bars in descending-value sorted order, not
in input order: for the input `[("A",1), ("B",2)]` the output label
sequence is `["B", "A"]`, not the input order `["A", "B"]`. -/
theorem C7_counterexample :
    mbtiTypes [("A", 1), ("B", 2)] = ["B", "A"] ∧
    (["B", "A"] ≠ (["A", "B"] : List String)) :=
  ⟨by decide, by decide⟩

/-- C7 (corrected): the output of the MBTI variant is in the internal
descending sort order, not the input order — its value sequence is
sorted in descending order, and its label sequence is a permutation of
the input labels (the same bars, reordered). -/
theorem C7_sorted_output (row : List (String × ℚ)) :
    List.Sorted (fun a b : ℚ => b ≤ a) (mbtiRatios row) ∧
    (mbtiTypes row).Perm (row.map Prod.fst) := by
  constructor
  · rw [mbtiRatios, List.Sorted, List.pairwise_map]
    exact @List.sorted_insertionSort _ _ _
      ⟨fun a b => le_total b.2 a.2⟩ ⟨fun a b c hab hbc => le_trans hbc hab⟩ row
  · exact (List.perm_insertionSort _ row).map Prod.fst

/-- Witness for C9: in `make_blue_gradient 4` (four bars, as in the
spec's example), each channel is monotone between gradient indices 1
and 2. -/
theorem C9_witness :
    gradChannel 0 204 (tGrad 4 1) ≤ gradChannel 0 204 (tGrad 4 2) ∧
    gradChannel 51 229 (tGrad 4 1) ≤ gradChannel 51 229 (tGrad 4 2) ∧
    gradChannel 204 255 (tGrad 4 1) ≤ gradChannel 204 255 (tGrad 4 2) :=
  ⟨C9_monotone 4 (by norm_num) 0 204 (by norm_num) 1 2 (by norm_num) (by decide),
   C9_monotone 4 (by norm_num) 51 229 (by norm_num) 1 2 (by norm_num) (by decide),
   C9_monotone 4 (by norm_num) 204 255 (by norm_num) 1 2 (by norm_num) (by decide)⟩
